import Mathlib

/-!
# Offline KITTI odometry driver: shallow embedding

Embedding of `run_odometry_kitti_offline.cpp` (functions `main` and
`load_gt_pose`) and of the interface of `DepthEstimator::ComputeDepth`
declared in `include/depth_estimate.h`.

* Floating point values are kept abstract: poses are matrices over a field `K`
  and the matrix product and inverse are read in exact arithmetic (the `float`
  operations of the code round); `std::atof` followed by the conversion to
  `float` is a function parameter.
* Images and pyramids are represented by their provenance (the frame id that
  was requested from `load_data`, the output map of `ComputeDepth` used as the
  base), since their pixel contents are computed by code outside this file.
* Accesses outside a C array are undefined behaviour in C++; the embedding
  reports them as `none` / `Outcome.undefined`.
-/

namespace Odometry

/-! ## Poses -/

/-- Type `odometry::Affine4f`: a 4x4 matrix (it is used with `.block<>` and `.inverse()`). -/
abbrev Affine4 (K : Type) := Matrix (Fin 4) (Fin 4) K

/-- Type `Eigen::Matrix<float, 3, 4, Eigen::RowMajor>`: an entry of `gt_poses` / `pred_poses`. -/
abbrev Pose34 (K : Type) := Matrix (Fin 3) (Fin 4) K

/-- Eigen `M.inverse()` for a fixed-size 4x4 matrix, read in exact arithmetic: the cofactor
(adjugate) matrix divided by the determinant, without the rounding of `float`. It is the
inverse when the determinant is not zero (for a singular matrix the code yields inf/NaN
entries, which this reading does not represent). -/
def inverse {K : Type} [Field K] (M : Affine4 K) : Affine4 K :=
  (M.det)⁻¹ • M.adjugate

/-- Expression `cur_pose.block<3,4>(0,0)`: the top three rows. -/
def block34 {K : Type} (M : Affine4 K) : Pose34 K :=
  Matrix.of fun r c => M (Fin.castSucc r) c

/-- Assignment `M.block<3,3>(0,0) = Identity()`. -/
def set_block33_identity {K : Type} [Zero K] [One K] (M : Affine4 K) : Affine4 K :=
  Matrix.of fun i j => if i.val < 3 ∧ j.val < 3 then (if i = j then 1 else 0) else M i j

/-- Assignment `M.block<1,4>(3,0) << a, b, c, d`. -/
def set_block14_row3 {K : Type} (M : Affine4 K) (a b c d : K) : Affine4 K :=
  Matrix.of fun i j => if i.val = 3 then ![a, b, c, d] j else M i j

/-- Assignment `M.block<3,1>(0,3) << a, b, c`. -/
def set_block31_col3 {K : Type} (M : Affine4 K) (a b c : K) : Affine4 K :=
  Matrix.of fun i j =>
    if j.val = 3 then (if i.val = 0 then a else if i.val = 1 then b else if i.val = 2 then c else M i j)
    else M i j

/-- Lines 82-85 of `main`: `cur_pose` is declared (contents indeterminate, here `garbage`) and
then filled by three block assignments. -/
def init_cur_pose {K : Type} [Zero K] [One K] (garbage : Affine4 K) : Affine4 K :=
  set_block31_col3 (set_block14_row3 (set_block33_identity garbage) 0 0 0 1) 0 0 0

/-- The rotation block `M.block<3,3>(0,0)`. -/
def rotation {K : Type} (M : Affine4 K) : Matrix (Fin 3) (Fin 3) K :=
  Matrix.of fun i j => M (Fin.castSucc i) (Fin.castSucc j)

/-- A valid rigid transform: orthonormal rotation block of determinant 1 and bottom row
`0 0 0 1`. -/
def IsRigid {K : Type} [Field K] (M : Affine4 K) : Prop :=
  Matrix.transpose (rotation M) * rotation M = 1 ∧ (rotation M).det = 1 ∧
    (∀ j : Fin 3, M (Fin.last 3) (Fin.castSucc j) = 0) ∧ M (Fin.last 3) (Fin.last 3) = 1

/-! ## Results of a run -/

/-- How a function of the program ends: it returns a value, it calls `exit(code)`, or it
performs an access the language leaves undefined. -/
inductive Outcome (α : Type) where
  | returned (a : α)
  | exited (code : Int)
  | undefined

/-- True when the outcome is a normal return. -/
def Outcome.isReturned {α : Type} : Outcome α → Bool
  | .returned _ => true
  | _ => false

/-! ## `load_gt_pose` -/

/-- The string terminator of C. -/
def NUL : Char := Char.ofNat 0

/-- The line delimiter used by `getline`. -/
def NL : Char := Char.ofNat 10

/-- The field separator tested by the scanning loop. -/
def SP : Char := Char.ofNat 32

/-- Size of `char raw_line[500]`. -/
def RAW_LINE_SIZE : Nat := 500

/-- Size of `char sub[100]`. -/
def SUB_SIZE : Nat := 100

/-- A C character array, indexed by position; only positions below the declared size may be
accessed. -/
abbrev CharBuf := Nat → Char

/-- State of `std::ifstream pose_file` once opened: the unread content and the state bits. -/
structure IfStream where
  rest : List Char
  eofbit : Bool
  failbit : Bool

/-- What the character extraction of `getline` did. -/
structure Extracted where
  stored : List Char
  rest : List Char
  gcount : Nat
  eofbit : Bool
  failbit : Bool

/-- Character extraction of `istream::getline(s, count)` with `room = count - 1` free
positions left: stop at end of file (eofbit), at the delimiter (extracted, not stored), or
when the array is full and the next character is not the delimiter (failbit). -/
def extract_line : Nat → List Char → Extracted
  | _, [] => ⟨[], [], 0, true, false⟩
  | room, c :: cs =>
    if c = NL then ⟨[], cs, 1, false, false⟩
    else
      match room with
      | 0 => ⟨[], c :: cs, 0, false, true⟩
      | room + 1 =>
        let r := extract_line room cs
        ⟨c :: r.stored, r.rest, r.gcount + 1, r.eofbit, r.failbit⟩

/-- Store the characters `stored` followed by the terminator at the start of the array. -/
def write_c_str (buf : CharBuf) (stored : List Char) : CharBuf :=
  fun j => if h : j < stored.length then stored.get ⟨j, h⟩
    else if j = stored.length then NUL else buf j

/-- Call `pose_file.getline(raw_line, count)`: when the stream is not good the call only sets
failbit and stores the terminator; otherwise characters are extracted, failbit is also set
when nothing was extracted, and the terminator is stored after the characters. -/
def getline (pose_file : IfStream) (raw_line : CharBuf) (count : Nat) : IfStream × CharBuf :=
  if pose_file.eofbit || pose_file.failbit then
    ({ pose_file with failbit := true }, write_c_str raw_line [])
  else
    let r := extract_line (count - 1) pose_file.rest
    ({ rest := r.rest, eofbit := r.eofbit, failbit := r.failbit || r.gcount == 0 },
      write_c_str raw_line r.stored)

/-- The inner `while` loop of `load_gt_pose` (lines 180-184): copy characters of `raw_line`
into `sub` until a space or the terminator. The first argument bounds the iterations by the
number of positions of `raw_line` left; a read at position 500 or beyond, or a write at
position 100 or beyond, is undefined (`none`). Returns `sub`, `scaner`, `sub_idx`. -/
def scan_field (raw_line : CharBuf) : Nat → CharBuf → Nat → Nat → Option (CharBuf × Nat × Nat)
  | 0, _, _, _ => none
  | fuel + 1, sub, scaner, sub_idx =>
    if RAW_LINE_SIZE ≤ scaner then none
    else if raw_line scaner ≠ SP ∧ raw_line scaner ≠ NUL then
      if SUB_SIZE ≤ sub_idx then none
      else scan_field raw_line fuel (Function.update sub sub_idx (raw_line scaner))
        (scaner + 1) (sub_idx + 1)
    else some (sub, scaner, sub_idx)

/-- The C string held by an array: the characters from position `i` up to the first
terminator (at most `n` of them). -/
def c_str (buf : CharBuf) : Nat → Nat → List Char
  | 0, _ => []
  | n + 1, i => if buf i = NUL then [] else buf i :: c_str buf n (i + 1)

/-- Assignment `tmp_pose(param_i) = v` on a row-major 3x4 matrix: linear index `param_i`
addresses row `param_i / 4`, column `param_i % 4`. -/
def set_coeff {F : Type} (tmp_pose : Pose34 F) (param_i : Nat) (v : F) : Pose34 F :=
  Matrix.of fun r c => if 4 * r.val + c.val = param_i then v else tmp_pose r c

/-- The `for (param_i ...)` loop of `load_gt_pose` (lines 177-189), with `n` iterations left.
Returns `sub`, `scaner` and `tmp_pose`, or `none` on an access outside `raw_line` or `sub`. -/
def parse_params {D F : Type} (atof : List Char → D) (toFloat : D → F) (raw_line : CharBuf) :
    Nat → Nat → CharBuf → Nat → Pose34 F → Option (CharBuf × Nat × Pose34 F)
  | 0, _, sub, scaner, tmp_pose => some (sub, scaner, tmp_pose)
  | n + 1, param_i, sub, scaner, tmp_pose =>
    match scan_field raw_line (RAW_LINE_SIZE + 1 - scaner) sub scaner 0 with
    | none => none
    | some (sub1, scaner1, sub_idx) =>
      if SUB_SIZE ≤ sub_idx then none
      else
        let sub2 := Function.update sub1 sub_idx NUL
        let tmp_param := atof (c_str sub2 SUB_SIZE 0)
        parse_params atof toFloat raw_line n (param_i + 1) sub2 (scaner1 + 1)
          (set_coeff tmp_pose param_i (toFloat tmp_param))

/-- The `for (i ...)` loop of `load_gt_pose` (lines 168-191), with `n` iterations left. -/
def read_poses {D F : Type} (atof : List Char → D) (toFloat : D → F) :
    Nat → Nat → IfStream → CharBuf → CharBuf → Pose34 F → List (Pose34 F) →
      Outcome (List (Pose34 F))
  | 0, _, _, _, _, _, gt_poses => .returned gt_poses
  | n + 1, i, pose_file, raw_line, sub, tmp_pose, gt_poses =>
    let r := getline pose_file raw_line RAW_LINE_SIZE
    if r.1.failbit then .exited (-1)
    else
      match parse_params atof toFloat r.2 12 0 sub 0 tmp_pose with
      | none => .undefined
      | some (sub1, _, tmp_pose1) =>
        read_poses atof toFloat n (i + 1) r.1 r.2 sub1 tmp_pose1 (gt_poses.set i tmp_pose1)

/-- Function `load_gt_pose(folder_name, gt_poses)`. `file` is the content of
`folder_name/poses/00.txt`, or `none` when it cannot be opened; `raw_line0`, `sub0`,
`tmp_pose0` are the indeterminate initial contents of the local arrays and matrix.
`num_frame` is an `unsigned int`. -/
def load_gt_pose {D F : Type} (atof : List Char → D) (toFloat : D → F)
    (file : Option (List Char)) (raw_line0 sub0 : CharBuf) (tmp_pose0 : Pose34 F)
    (gt_poses : List (Pose34 F)) : Outcome (List (Pose34 F)) :=
  let num_frame := gt_poses.length % 2 ^ 32
  match file with
  | none => .exited (-1)
  | some content =>
    read_poses atof toFloat num_frame 0 ⟨content, false, false⟩ raw_line0 sub0 tmp_pose0 gt_poses

/-! ## `DepthEstimator::ComputeDepth` -/

/-- Type `odometry::GlobalStatus`; `-1` is the failure status. -/
abbrev GlobalStatus := Int

/-- An image / map (`cv::Mat`): its size and its pixels. -/
structure Mat (V : Type) where
  rows : Nat
  cols : Nat
  data : Nat → Nat → V

/-- Test `cv::Mat::empty()`. -/
def Mat.empty {V : Type} (m : Mat V) : Bool :=
  m.rows == 0 || m.cols == 0

/-- The three output maps of `ComputeDepth`. -/
structure DepthMaps (V : Type) where
  left_val : Mat V
  left_disp : Mat V
  left_dep : Mat V

/-- Modelled from the spec: the body of `DepthEstimator::ComputeDepth`, which is not in the
sources at hand (only its declaration in `depth_estimate.h`). Mismatched image dimensions or
empty images are a call-level failure: the status `-1` is returned and no output map is
written. Otherwise the matching strategy (`DisparityDepthEstimateStrategy2`, a parameter
here) fills the maps and provides the status. -/
def ComputeDepth {V : Type}
    (strategy : Mat V → Mat V → DepthMaps V → GlobalStatus × DepthMaps V)
    (left_img right_img : Mat V) (out : DepthMaps V) : GlobalStatus × DepthMaps V :=
  if left_img.empty || right_img.empty || left_img.rows != right_img.rows
      || left_img.cols != right_img.cols then
    (-1, out)
  else strategy left_img right_img out

/-! ## `main` -/

/-- The output map of `ComputeDepth` a depth pyramid is built on. -/
inductive MapKind where
  | left_val
  | left_disp
  | left_dep
  deriving DecidableEq, Repr

/-- An `odometry::ImagePyramid(levels, gray[0], false)`, identified by the frame whose left
image is its base. -/
structure ImagePyramid where
  levels : Nat
  frame : Nat
  deriving DecidableEq, Repr

/-- An `odometry::DepthPyramid(levels, map, false)`, identified by the frame and by the
output map of `ComputeDepth` used as its base. -/
structure DepthPyramid where
  levels : Nat
  frame : Nat
  base : MapKind
  deriving DecidableEq, Repr

/-- Messages of `main` on `std::cout` that report a failure or the end of the loop. -/
inductive Msg where
  | init_0th_frame_failed
  | depth_failed
  | compute_depth_done
  | sequence_done
  deriving DecidableEq, Repr

/-- The observable steps of `main`, in program order. -/
inductive Event where
  | load_data (frame_id : Nat)
  | ComputeDepth (frame : Nat)
  | new_ImagePyramid (p : ImagePyramid)
  | new_DepthPyramid (p : DepthPyramid)
  | Solve (pre_img_pyramid : ImagePyramid) (pre_dep_pyramid : DepthPyramid)
      (cur_img_pyramid : ImagePyramid)
  | cout (m : Msg)
  | eval_pose
  deriving DecidableEq, Repr

/-- The variables of `main` that live across loop iterations, and the steps taken so far. -/
structure MainState (K : Type) where
  gt_poses : List (Pose34 K)
  pred_poses : List (Pose34 K)
  cur_pose : Affine4 K
  pre_img_pyramid : ImagePyramid
  pre_dep_pyramid : DepthPyramid
  trace : List Event

/-- One iteration of the frame loop (lines 112-139). `Solve frame_id` is the matrix returned
by the call of `pose_estimator.Solve` in this iteration and `depth_status frame_id` the status
returned by `ComputeDepth`. The second component is `false` when the iteration ends with
`break`. The declarations at lines 137-138 create objects local to the loop body that hide
the outer `pre_dep_pyramid` / `pre_img_pyramid`; the outer objects are not assigned.
The body of `load_data` is empty in this repository: the image buffer `cur_gray` is
identified by the frame id that was passed to `load_data` for it.
The update `cur_pose * rela_pose.inverse()` is read in exact arithmetic over the field `K`;
the `float` operations of the code round each product and sum, so statements on the values
of `cur_pose` hold under that premise only (the control flow, the calls and the vector
operations do not depend on it). -/
def frame_body {K : Type} [Field K] (Solve : Nat → Affine4 K) (depth_status : Nat → GlobalStatus)
    (frame_id : Nat) (s : MainState K) : MainState K × Bool :=
  -- load_data(data_path, cur_gray, frame_id)
  let cur_gray := frame_id
  let cur_img_pyramid : ImagePyramid := ⟨4, cur_gray⟩
  let rela_pose := Solve frame_id
  let cur_pose := s.cur_pose * inverse rela_pose
  let pred_poses := s.pred_poses ++ [block34 cur_pose]
  let depth_state := depth_status cur_gray
  let trace := s.trace ++ [Event.load_data frame_id, Event.new_ImagePyramid cur_img_pyramid,
    Event.Solve s.pre_img_pyramid s.pre_dep_pyramid cur_img_pyramid, Event.ComputeDepth cur_gray]
  if depth_state = -1 then
    ({ s with cur_pose := cur_pose, pred_poses := pred_poses,
              trace := trace ++ [Event.cout Msg.depth_failed] }, false)
  else
    let pre_dep_pyramid_local : DepthPyramid := ⟨4, cur_gray, MapKind.left_dep⟩
    let pre_img_pyramid_local : ImagePyramid := ⟨4, cur_gray⟩
    ({ s with cur_pose := cur_pose, pred_poses := pred_poses,
              trace := trace ++ [Event.cout Msg.compute_depth_done,
                Event.new_DepthPyramid pre_dep_pyramid_local,
                Event.new_ImagePyramid pre_img_pyramid_local] }, true)

/-- The loop `for (frame_id = ...; frame_id < num_frames; frame_id++)` run for at most `n`
iterations from `frame_id`. -/
def main_loop {K : Type} [Field K] (Solve : Nat → Affine4 K) (depth_status : Nat → GlobalStatus)
    (num_frames : Nat) : Nat → Nat → MainState K → MainState K
  | 0, _, s => s
  | n + 1, frame_id, s =>
    if frame_id < num_frames then
      let r := frame_body Solve depth_status frame_id s
      if r.2 then main_loop Solve depth_status num_frames n (frame_id + 1) r.1 else r.1
    else s

/-- The state of `main` when the frame loop is entered (lines 82-107), `gt0` being
`gt_poses[0]`. The vector `pred_poses` was created with `num_frames` elements (`pred_init`,
contents indeterminate) and `gt_poses[0]` was appended; the depth pyramid of frame 0 is built
on `pre_left_disp`. -/
def loop_entry {K : Type} [Field K] (num_frames : Nat) (pred_init : Nat → Pose34 K)
    (cur_pose_garbage : Affine4 K) (gt_poses : List (Pose34 K)) (gt0 : Pose34 K) : MainState K :=
  { gt_poses := gt_poses
    pred_poses := (List.range num_frames).map pred_init ++ [gt0]
    cur_pose := init_cur_pose cur_pose_garbage
    pre_img_pyramid := ⟨4, 0⟩
    pre_dep_pyramid := ⟨4, 0, MapKind.left_disp⟩
    trace := [Event.load_data 0, Event.ComputeDepth 0, Event.new_ImagePyramid ⟨4, 0⟩,
      Event.new_DepthPyramid ⟨4, 0, MapKind.left_disp⟩] }

/-- Function `main`, for a frame count `num_frames` (the source fixes it to 5). The inputs
are the pose file, the results of the `Solve` and `ComputeDepth` calls per frame, and the
indeterminate initial contents of the uninitialised objects. -/
def main {K D : Type} [Field K] (atof : List Char → D) (toFloat : D → K)
    (num_frames : Nat) (file : Option (List Char))
    (Solve : Nat → Affine4 K) (depth_status : Nat → GlobalStatus)
    (raw_line0 sub0 : CharBuf) (tmp_pose0 : Pose34 K) (gt_init pred_init : Nat → Pose34 K)
    (cur_pose_garbage : Affine4 K) : Outcome (MainState K) :=
  match load_gt_pose atof toFloat file raw_line0 sub0 tmp_pose0
      ((List.range num_frames).map gt_init) with
  | .exited code => .exited code
  | .undefined => .undefined
  | .returned gt_poses =>
    match gt_poses.head? with
    | none => .undefined
    | some gt0 =>
      if depth_status 0 = -1 then .exited (-1)
      else
        let s := main_loop Solve depth_status num_frames (num_frames - 1) 1
          (loop_entry num_frames pred_init cur_pose_garbage gt_poses gt0)
        .returned { s with trace := s.trace ++ [Event.cout Msg.sequence_done, Event.eval_pose] }

/-! ## Pose files as lines and fields -/

/-- The first line of a text: the characters before the first newline. -/
def take_line (cs : List Char) : List Char :=
  cs.takeWhile fun c => c != NL

/-- The text after the first line and its newline. -/
def drop_line (cs : List Char) : List Char :=
  (cs.dropWhile fun c => c != NL).tail

/-- The text that remains after `i` lines. -/
def rest_after : Nat → List Char → List Char
  | 0, cs => cs
  | i + 1, cs => rest_after i (drop_line cs)

/-- Line number `i` of a text (counted from 0). -/
def line_at (content : List Char) (i : Nat) : List Char :=
  take_line (rest_after i content)

/-- Line `i` exists and fits the array `raw_line`: `getline` reads it without failure. -/
def line_readable (content : List Char) (i : Nat) : Prop :=
  rest_after i content ≠ [] ∧ (line_at content i).length < RAW_LINE_SIZE

/-- Fields separated by single spaces. -/
def join_fields : List (List Char) → List Char
  | [] => []
  | [f] => f
  | f :: g :: fs => f ++ SP :: join_fields (g :: fs)

/-- A field as the scanning loop delimits it: shorter than `sub`, without space, terminator
or newline. -/
def field_ok (f : List Char) : Prop :=
  f.length < SUB_SIZE ∧ ∀ c ∈ f, c ≠ SP ∧ c ≠ NUL ∧ c ≠ NL

/-- A pose line: exactly 12 fields separated by single spaces, shorter than `raw_line`. -/
def pose_line (line : List Char) (fields : List (List Char)) : Prop :=
  fields.length = 12 ∧ (∀ f ∈ fields, field_ok f) ∧ line = join_fields fields ∧
    line.length < RAW_LINE_SIZE

/-- The array holds the characters `l` from position `s` on. -/
def holds (buf : CharBuf) : Nat → List Char → Prop
  | _, [] => True
  | s, c :: l => buf s = c ∧ holds buf (s + 1) l

/-- The stream has not failed, and once end of file was hit nothing is left to read. -/
def IfStream.readable (pf : IfStream) : Prop :=
  pf.failbit = false ∧ (pf.eofbit = true → pf.rest = [])

/-! ## Observations on a run of `main` -/

/-- The final state of a run that returned. -/
def Outcome.state? {α : Type} : Outcome α → Option α
  | .returned a => some a
  | _ => none

/-- The arguments of the calls of `pose_estimator.Solve`, in order. -/
def solve_calls (trace : List Event) : List (ImagePyramid × DepthPyramid × ImagePyramid) :=
  trace.filterMap fun e => match e with
    | Event.Solve pre_img pre_dep cur_img => some (pre_img, pre_dep, cur_img)
    | _ => none

/-- The depth pyramids constructed, in order. -/
def depth_pyramids (trace : List Event) : List DepthPyramid :=
  trace.filterMap fun e => match e with
    | Event.new_DepthPyramid p => some p
    | _ => none

/-! ## Auxiliary definitions of the proofs -/

/-- The closed form of the inverse of a rigid transform: rotation transposed, translation
`-Rᵀ t`. -/
def rigid_inverse {K : Type} [Field K] (M : Affine4 K) : Affine4 K :=
  Matrix.of fun i j =>
    Fin.lastCases (Fin.lastCases (1 : K) (fun _ => 0) j)
      (fun i1 => Fin.lastCases
        (-(∑ k : Fin 3, M (Fin.castSucc k) (Fin.castSucc i1) * M (Fin.castSucc k) (Fin.last 3)))
        (fun j1 => M (Fin.castSucc j1) (Fin.castSucc i1)) j) i

/-- The poses composed by iterations `frame_id, ..., frame_id + n - 1` of the loop. -/
def composed {K : Type} [Field K] (Solve : Nat → Affine4 K) (frame_id n : Nat) : Affine4 K :=
  ((List.range n).map fun j => inverse (Solve (frame_id + j))).prod

/-! ## Sample inputs -/

/-- A sample relative pose: a quarter turn about the z axis and a translation. -/
def sample_pose : Affine4 ℚ := !![0, -1, 0, 2; 1, 0, 0, 3; 0, 0, 1, 4; 0, 0, 0, 1]

/-- A decimal reading of a string of digits, the sample `atof` of the worked examples. -/
def atof_digits (s : List Char) : ℚ :=
  s.foldl (fun a c => 10 * a + ((c.toNat - 48 : Nat) : ℚ)) 0

/-- A pose file of five lines. -/
def sample_file : List Char :=
  ("1 0 0 0 0 1 0 0 0 0 1 0\n1 0 0 1 0 1 0 0 0 0 1 2\n1 0 0 2 0 1 0 0 0 0 1 4\n" ++
   "1 0 0 3 0 1 0 0 0 0 1 6\n1 0 0 4 0 1 0 0 0 0 1 8\n").toList

/-- The fields of line `i` of `sample_file` (for `i < 5`). -/
def sample_fields (i : Nat) : List (List Char) :=
  [['1'], ['0'], ['0'], [Char.ofNat (48 + i)], ['0'], ['1'], ['0'], ['0'], ['0'], ['0'], ['1'],
    [Char.ofNat (48 + 2 * i)]]

/-- A finite value of the type `float` (IEEE binary32): `m * 2^a / 2^b` with an integer
significand `|m| < 2^24` and an exponent `a - b` between `-149` and `104`. -/
def is_binary32 (q : ℚ) : Prop :=
  ∃ (m : ℤ) (a b : ℕ), |m| < 2 ^ 24 ∧ a ≤ 104 ∧ b ≤ 149 ∧ q = (m : ℚ) * 2 ^ a / 2 ^ b

/-- A pure translation by `t` along the x axis. -/
def translation_x {K : Type} [Field K] (t : K) : Affine4 K :=
  !![1, 0, 0, t; 0, 1, 0, 0; 0, 0, 1, 0; 0, 0, 0, 1]

/-- The value of the literal `0.1f`: the `float` nearest to one tenth. -/
def tenth : ℚ := 13421773 / 134217728

/-- The run of `main` on the sample file (5 frames) in which every `ComputeDepth` call
succeeds and every `Solve` call returns `sample_pose`. -/
def sample_run : Outcome (MainState ℚ) :=
  main atof_digits id 5 (some sample_file) (fun _ => sample_pose) (fun _ => 0)
    (fun _ => 'x') (fun _ => 'y') 0 (fun _ => 0) (fun _ => 0) 0

theorem inverse_eq_inv {K : Type} [Field K] (M : Affine4 K) : inverse M = M⁻¹ := by
  unfold inverse
  rw [Matrix.inv_def, Ring.inverse_eq_inv']

theorem init_cur_pose_eq_one {K : Type} [Field K] (garbage : Affine4 K) :
    init_cur_pose garbage = 1 := by
  ext i j
  fin_cases i <;> fin_cases j <;> rfl

theorem rotation_one {K : Type} [Field K] : rotation (1 : Affine4 K) = 1 := by
  ext i j
  simp [rotation, Matrix.one_apply, Fin.ext_iff]

theorem isRigid_one {K : Type} [Field K] : IsRigid (1 : Affine4 K) := by
  refine ⟨?_, ?_, ?_, ?_⟩
  · rw [rotation_one]; simp
  · rw [rotation_one]; simp
  · intro j
    fin_cases j <;> simp [Matrix.one_apply, Fin.ext_iff]
  · simp

theorem rotation_mul {K : Type} [Field K] (M N : Affine4 K)
    (hN : ∀ j : Fin 3, N (Fin.last 3) (Fin.castSucc j) = 0) :
    rotation (M * N) = rotation M * rotation N := by
  ext i j
  simp [rotation, Matrix.mul_apply, Fin.sum_univ_castSucc, hN]

theorem isRigid_mul {K : Type} [Field K] (M N : Affine4 K) (hM : IsRigid M) (hN : IsRigid N) :
    IsRigid (M * N) := by
  obtain ⟨hM1, hM2, hM3, hM4⟩ := hM
  obtain ⟨hN1, hN2, hN3, hN4⟩ := hN
  have r0 : M (Fin.last 3) 0 = 0 := hM3 0
  have r1 : M (Fin.last 3) 1 = 0 := hM3 1
  have r2 : M (Fin.last 3) 2 = 0 := hM3 2
  have r3 : M (Fin.last 3) 3 = 1 := hM4
  refine ⟨?_, ?_, ?_, ?_⟩
  · rw [rotation_mul M N hN3, Matrix.transpose_mul, Matrix.mul_assoc,
      ← Matrix.mul_assoc (Matrix.transpose (rotation M)), hM1, Matrix.one_mul, hN1]
  · rw [rotation_mul M N hN3, Matrix.det_mul, hM2, hN2, mul_one]
  · intro j
    have n3 : N 3 (Fin.castSucc j) = 0 := hN3 j
    rw [Matrix.mul_apply, Fin.sum_univ_four, r0, r1, r2, r3, n3]
    simp
  · have n3 : N 3 (Fin.last 3) = 1 := hN4
    rw [Matrix.mul_apply, Fin.sum_univ_four, r0, r1, r2, r3, n3]
    simp

theorem rigid_inverse_mul {K : Type} [Field K] (M : Affine4 K) (hM : IsRigid M) :
    rigid_inverse M * M = 1 := by
  obtain ⟨hM1, -, hM3, hM4⟩ := hM
  ext i j
  induction i using Fin.lastCases with
  | last =>
    induction j using Fin.lastCases with
    | last => simp [rigid_inverse, Matrix.mul_apply, Fin.sum_univ_castSucc, hM4]
    | cast j1 =>
      have h := hM3 j1
      have hne : (Fin.last 3 : Fin 4) ≠ Fin.castSucc j1 := (Fin.castSucc_lt_last j1).ne.symm
      rw [Matrix.mul_apply, Fin.sum_univ_castSucc]
      simp [rigid_inverse, h, Matrix.one_apply, hne]
  | cast i1 =>
    induction j using Fin.lastCases with
    | last =>
      have hne : (Fin.castSucc i1 : Fin 4) ≠ Fin.last 3 := (Fin.castSucc_lt_last i1).ne
      rw [Matrix.mul_apply, Fin.sum_univ_castSucc]
      simp [rigid_inverse, hM4, Matrix.one_apply, hne]
    | cast j1 =>
      have h := hM3 j1
      have hrot := congrFun (congrFun hM1 i1) j1
      rw [Matrix.mul_apply, Fin.sum_univ_castSucc]
      simp only [rigid_inverse, Matrix.of_apply, Fin.lastCases_castSucc, Fin.lastCases_last, h,
        mul_zero, add_zero]
      rw [Matrix.mul_apply] at hrot
      simp only [Matrix.transpose_apply, rotation, Matrix.of_apply] at hrot
      rw [hrot]
      simp [Matrix.one_apply]

theorem inverse_eq_rigid_inverse {K : Type} [Field K] (M : Affine4 K) (hM : IsRigid M) :
    inverse M = rigid_inverse M := by
  rw [inverse_eq_inv]
  exact Matrix.inv_eq_left_inv (rigid_inverse_mul M hM)

theorem rotation_rigid_inverse {K : Type} [Field K] (M : Affine4 K) :
    rotation (rigid_inverse M) = Matrix.transpose (rotation M) := by
  ext i j
  simp [rotation, rigid_inverse]

theorem isRigid_inverse {K : Type} [Field K] (M : Affine4 K) (hM : IsRigid M) :
    IsRigid (inverse M) := by
  rw [inverse_eq_rigid_inverse M hM]
  obtain ⟨hM1, hM2, -, -⟩ := hM
  refine ⟨?_, ?_, ?_, ?_⟩
  · rw [rotation_rigid_inverse, Matrix.transpose_transpose]
    exact Matrix.mul_eq_one_comm.mp hM1
  · rw [rotation_rigid_inverse, Matrix.det_transpose, hM2]
  · intro j
    simp [rigid_inverse]
  · simp [rigid_inverse]

theorem det_ne_zero_of_isRigid {K : Type} [Field K] (M : Affine4 K) (hM : IsRigid M) :
    M.det ≠ 0 := by
  have h := congrArg Matrix.det (rigid_inverse_mul M hM)
  rw [Matrix.det_mul, Matrix.det_one] at h
  intro h0
  rw [h0, mul_zero] at h
  exact zero_ne_one h

/-! ## The frame loop -/

/-- The iteration bound `num_frames - 1` used by `main` is enough: once the bound covers the
frames left, more iterations change nothing, so the loop of the model ends as the `for` loop
does (by its condition or by `break`). -/
theorem main_loop_enough_fuel {K : Type} [Field K] (Solve : Nat → Affine4 K)
    (depth_status : Nat → GlobalStatus) (num_frames extra : Nat) :
    ∀ (n frame_id : Nat) (s : MainState K), num_frames ≤ frame_id + n →
      main_loop Solve depth_status num_frames (n + extra) frame_id s
        = main_loop Solve depth_status num_frames n frame_id s := by
  intro n
  induction n with
  | zero =>
    intro frame_id s h
    cases extra with
    | zero => rfl
    | succ e =>
      have hge : ¬ frame_id < num_frames := by omega
      simp only [Nat.zero_add, main_loop, if_neg hge]
  | succ n ih =>
    intro frame_id s h
    have hrec := fun s1 => ih (frame_id + 1) s1 (by omega)
    rw [show n + 1 + extra = (n + extra) + 1 by omega]
    simp only [main_loop, hrec]

theorem frame_body_cur_pose {K : Type} [Field K] (Solve : Nat → Affine4 K)
    (depth_status : Nat → GlobalStatus) (frame_id : Nat) (s : MainState K) :
    (frame_body Solve depth_status frame_id s).1.cur_pose
      = s.cur_pose * inverse (Solve frame_id) := by
  unfold frame_body
  by_cases h : depth_status frame_id = -1 <;> simp [h]

theorem frame_body_pred_poses {K : Type} [Field K] (Solve : Nat → Affine4 K)
    (depth_status : Nat → GlobalStatus) (frame_id : Nat) (s : MainState K) :
    (frame_body Solve depth_status frame_id s).1.pred_poses
      = s.pred_poses ++ [block34 (s.cur_pose * inverse (Solve frame_id))] := by
  unfold frame_body
  by_cases h : depth_status frame_id = -1 <;> simp [h]

theorem frame_body_pyramids {K : Type} [Field K] (Solve : Nat → Affine4 K)
    (depth_status : Nat → GlobalStatus) (frame_id : Nat) (s : MainState K) :
    (frame_body Solve depth_status frame_id s).1.pre_img_pyramid = s.pre_img_pyramid ∧
    (frame_body Solve depth_status frame_id s).1.pre_dep_pyramid = s.pre_dep_pyramid ∧
    (frame_body Solve depth_status frame_id s).1.gt_poses = s.gt_poses := by
  unfold frame_body
  by_cases h : depth_status frame_id = -1 <;> simp [h]

theorem frame_body_continue {K : Type} [Field K] (Solve : Nat → Affine4 K)
    (depth_status : Nat → GlobalStatus) (frame_id : Nat) (s : MainState K) :
    (frame_body Solve depth_status frame_id s).2 = true ↔ depth_status frame_id ≠ -1 := by
  unfold frame_body
  by_cases h : depth_status frame_id = -1 <;> simp [h]

theorem composed_succ {K : Type} [Field K] (Solve : Nat → Affine4 K) (frame_id n : Nat) :
    composed Solve frame_id (n + 1) = inverse (Solve frame_id) * composed Solve (frame_id + 1) n := by
  unfold composed
  rw [List.range_succ_eq_map]
  simp [List.map_map, Function.comp_def, Nat.add_assoc, Nat.add_comm 1]

theorem composed_one {K : Type} [Field K] (Solve : Nat → Affine4 K) (frame_id : Nat) :
    composed Solve frame_id 1 = inverse (Solve frame_id) := by
  simp [composed, List.range_succ]

theorem main_loop_cur_pose {K : Type} [Field K] (Solve : Nat → Affine4 K)
    (depth_status : Nat → GlobalStatus) (num_frames : Nat) :
    ∀ (n frame_id : Nat) (s : MainState K), frame_id + n ≤ num_frames →
      (∀ j, frame_id ≤ j → j + 1 < frame_id + n → depth_status j ≠ -1) →
      (main_loop Solve depth_status num_frames n frame_id s).cur_pose
        = s.cur_pose * composed Solve frame_id n ∧
      (main_loop Solve depth_status num_frames n frame_id s).pred_poses
        = s.pred_poses ++ (List.range n).map fun m =>
            block34 (s.cur_pose * composed Solve frame_id (m + 1)) := by
  intro n
  induction n with
  | zero =>
    intro frame_id s _ _
    simp [main_loop, composed]
  | succ n ih =>
    intro frame_id s hle hok
    have hlt : frame_id < num_frames := by omega
    rw [main_loop, if_pos hlt]
    by_cases hc : (frame_body Solve depth_status frame_id s).2 = true
    · simp only [hc, if_true]
      have h := ih (frame_id + 1) (frame_body Solve depth_status frame_id s).1 (by omega)
        (fun j h1 h2 => hok j (by omega) (by omega))
      rw [frame_body_cur_pose, frame_body_pred_poses] at h
      refine ⟨?_, ?_⟩
      · rw [h.1, composed_succ, Matrix.mul_assoc]
      · rw [h.2, List.append_assoc]
        congr 1
        rw [List.range_succ_eq_map, List.map_cons, List.map_map, List.singleton_append]
        congr 1
        · rw [composed_one]
        · apply List.map_congr_left
          intro m _
          simp only [Function.comp_def, Nat.succ_eq_add_one]
          rw [composed_succ Solve frame_id (m + 1), Matrix.mul_assoc]
    · have hn : n = 0 := by
        by_contra hn
        have := hok frame_id (le_refl _) (by omega)
        exact hc ((frame_body_continue Solve depth_status frame_id s).mpr this)
      subst hn
      rw [if_neg hc, frame_body_cur_pose, frame_body_pred_poses]
      simp [composed_one, List.range_succ]

theorem main_loop_rigid {K : Type} [Field K] (Solve : Nat → Affine4 K)
    (depth_status : Nat → GlobalStatus) (num_frames : Nat) :
    ∀ (n frame_id : Nat) (s : MainState K),
      (∀ j, frame_id ≤ j → j < num_frames → IsRigid (Solve j)) → IsRigid s.cur_pose →
      IsRigid (main_loop Solve depth_status num_frames n frame_id s).cur_pose := by
  intro n
  induction n with
  | zero => intro frame_id s _ hs; simpa [main_loop] using hs
  | succ n ih =>
    intro frame_id s hS hs
    rw [main_loop]
    by_cases hlt : frame_id < num_frames
    · have hb : IsRigid (frame_body Solve depth_status frame_id s).1.cur_pose := by
        rw [frame_body_cur_pose]
        exact isRigid_mul _ _ hs (isRigid_inverse _ (hS frame_id (le_refl _) hlt))
      rw [if_pos hlt]
      by_cases hc : (frame_body Solve depth_status frame_id s).2 = true
      · rw [if_pos hc]
        exact ih _ _ (fun j h1 h2 => hS j (by omega) h2) hb
      · rw [if_neg hc]
        exact hb
    · rw [if_neg hlt]
      exact hs

theorem main_loop_pyramids {K : Type} [Field K] (Solve : Nat → Affine4 K)
    (depth_status : Nat → GlobalStatus) (num_frames : Nat) :
    ∀ (n frame_id : Nat) (s : MainState K),
      (main_loop Solve depth_status num_frames n frame_id s).pre_img_pyramid = s.pre_img_pyramid ∧
      (main_loop Solve depth_status num_frames n frame_id s).pre_dep_pyramid = s.pre_dep_pyramid ∧
      (main_loop Solve depth_status num_frames n frame_id s).gt_poses = s.gt_poses := by
  intro n
  induction n with
  | zero => intro frame_id s; simp [main_loop]
  | succ n ih =>
    intro frame_id s
    rw [main_loop]
    have hb := frame_body_pyramids Solve depth_status frame_id s
    by_cases hlt : frame_id < num_frames
    · rw [if_pos hlt]
      by_cases hc : (frame_body Solve depth_status frame_id s).2 = true
      · rw [if_pos hc]
        have h := ih (frame_id + 1) (frame_body Solve depth_status frame_id s).1
        exact ⟨h.1.trans hb.1, h.2.1.trans hb.2.1, h.2.2.trans hb.2.2⟩
      · rw [if_neg hc]
        exact hb
    · rw [if_neg hlt]
      exact ⟨rfl, rfl, rfl⟩

theorem composed_eq_inverse_prod {K : Type} [Field K] (Solve : Nat → Affine4 K) (k : Nat) :
    composed Solve 1 k = inverse (((List.range k).reverse.map fun j => Solve (1 + j)).prod) := by
  rw [inverse_eq_inv, Matrix.list_prod_inv_reverse]
  unfold composed
  simp [List.map_reverse, List.map_map, Function.comp_def, inverse_eq_inv]

theorem det_list_prod_ne_zero {K : Type} [Field K] (l : List (Affine4 K))
    (h : ∀ M ∈ l, M.det ≠ 0) : l.prod.det ≠ 0 := by
  induction l with
  | nil => simp
  | cons M l ih =>
    rw [List.prod_cons, Matrix.det_mul]
    exact mul_ne_zero (h M (List.mem_cons_self _ _)) (ih fun N hN => h N (List.mem_cons_of_mem _ hN))

theorem inverse_mul_cancel {K : Type} [Field K] (M : Affine4 K) (h : M.det ≠ 0) :
    inverse M * M = 1 := by
  rw [inverse_eq_inv]
  exact Matrix.nonsing_inv_mul M (isUnit_iff_ne_zero.mpr h)

/-- The first `a` iterations of the loop, when none of them ends with `break`, followed by the
remaining ones, make up the longer run: `main_loop .. a ..` is the state after `a` frames. -/
theorem main_loop_split {K : Type} [Field K] (Solve : Nat → Affine4 K)
    (depth_status : Nat → GlobalStatus) (num_frames b : Nat) :
    ∀ (a frame_id : Nat) (s : MainState K), frame_id + a ≤ num_frames →
      (∀ j, frame_id ≤ j → j < frame_id + a → depth_status j ≠ -1) →
      main_loop Solve depth_status num_frames (a + b) frame_id s
        = main_loop Solve depth_status num_frames b (frame_id + a)
            (main_loop Solve depth_status num_frames a frame_id s) := by
  intro a
  induction a with
  | zero => intro frame_id s _ _; simp [main_loop]
  | succ a ih =>
    intro frame_id s hle hok
    have hlt : frame_id < num_frames := by omega
    have hc : (frame_body Solve depth_status frame_id s).2 = true :=
      (frame_body_continue Solve depth_status frame_id s).mpr (hok frame_id (le_refl _) (by omega))
    rw [show a + 1 + b = (a + b) + 1 by omega, main_loop, if_pos hlt, if_pos hc,
      main_loop, if_pos hlt, if_pos hc, ih (frame_id + 1) _ (by omega)
        (fun j h1 h2 => hok j (by omega) (by omega)),
      show frame_id + 1 + a = frame_id + (a + 1) by omega]

theorem rotation_sample_pose :
    rotation sample_pose = !![0, -1, 0; 1, 0, 0; 0, 0, 1] := by
  ext i j
  fin_cases i <;> fin_cases j <;> rfl

theorem sample_pose_rigid : IsRigid sample_pose := by
  refine ⟨?_, ?_, ?_, ?_⟩
  · have ht : Matrix.transpose (!![0, -1, 0; 1, 0, 0; 0, 0, 1] : Matrix (Fin 3) (Fin 3) ℚ)
        = !![0, 1, 0; -1, 0, 0; 0, 0, 1] := by
      ext i j
      fin_cases i <;> fin_cases j <;> rfl
    rw [rotation_sample_pose, ht]
    ext i j
    fin_cases i <;> fin_cases j <;>
      simp [Matrix.mul_apply, Fin.sum_univ_three, Matrix.vecHead, Matrix.vecTail]
  · rw [rotation_sample_pose]
    simp [Matrix.det_fin_three]
  · intro j
    fin_cases j <;> rfl
  · rfl

/-- C3: in exact arithmetic (any field `K`, the reals included), if every relative pose
returned by `Solve` for the frames of the loop is a valid rigid transform, then `cur_pose` is
a valid rigid transform when the loop is entered (after the three block assignments, whatever
the matrix held before) and after any number `n` of iterations of the frame loop, each of
which performs `cur_pose = cur_pose * rela_pose.inverse()`. -/
theorem cur_pose_remains_rigid {K : Type} [Field K] (Solve : Nat → Affine4 K)
    (depth_status : Nat → GlobalStatus) (num_frames : Nat) (pred_init : Nat → Pose34 K)
    (cur_pose_garbage : Affine4 K) (gt_poses : List (Pose34 K)) (gt0 : Pose34 K)
    (hS : ∀ frame_id, 1 ≤ frame_id → frame_id < num_frames → IsRigid (Solve frame_id))
    (n : Nat) :
    IsRigid (loop_entry num_frames pred_init cur_pose_garbage gt_poses gt0).cur_pose ∧
    IsRigid (main_loop Solve depth_status num_frames n 1
      (loop_entry num_frames pred_init cur_pose_garbage gt_poses gt0)).cur_pose := by
  have h0 : IsRigid (loop_entry num_frames pred_init cur_pose_garbage gt_poses gt0).cur_pose := by
    show IsRigid (init_cur_pose cur_pose_garbage)
    rw [init_cur_pose_eq_one]
    exact isRigid_one
  exact ⟨h0, main_loop_rigid Solve depth_status num_frames n 1 _ hS h0⟩

theorem cur_pose_remains_rigid_witness :
    (∀ frame_id, 1 ≤ frame_id → frame_id < 5 → IsRigid ((fun _ => sample_pose) frame_id)) ∧
    (IsRigid (loop_entry 5 (fun _ => (0 : Pose34 ℚ)) 0 [] 0).cur_pose ∧
     IsRigid (main_loop (fun _ => sample_pose) (fun _ => 0) 5 4 1
      (loop_entry 5 (fun _ => (0 : Pose34 ℚ)) 0 [] 0)).cur_pose) :=
  ⟨fun _ _ _ => sample_pose_rigid,
   cur_pose_remains_rigid (fun _ => sample_pose) (fun _ => 0) 5 (fun _ => 0) 0 [] 0
    (fun _ _ _ => sample_pose_rigid) 4⟩

/-- C4 (amended): in exact arithmetic (any field `K`, the reals included), for
`1 ≤ k < num_frames`, when the loop reaches frame `k` (no `ComputeDepth` failure at frames
`1..k-1`) and the relative poses `T_j = Solve j` of frames `1..k` are invertible, `cur_pose`
starts as the identity, after frame `k` it equals `T_1⁻¹ * ... * T_k⁻¹`, which is
`(T_k * ... * T_1)⁻¹` (a true inverse: its product with `T_k * ... * T_1` is the identity),
and the pose appended to `pred_poses` in iteration `k` is the top 3x4 block of that matrix:
its entry `(r, c)` is entry `(r, c)` of the matrix, for `r < 3` and `c < 4`.
The state after frame `k` is the state of the loop after `k` iterations
(`main_loop .. k 1 ..`, a prefix of the full run by `main_loop_split`). -/
theorem cur_pose_after_frame {K : Type} [Field K] (Solve : Nat → Affine4 K)
    (depth_status : Nat → GlobalStatus) (num_frames : Nat) (pred_init : Nat → Pose34 K)
    (cur_pose_garbage : Affine4 K) (gt_poses : List (Pose34 K)) (gt0 : Pose34 K) (k : Nat)
    (hk1 : 1 ≤ k) (hk : k < num_frames)
    (hreach : ∀ j, 1 ≤ j → j < k → depth_status j ≠ -1)
    (hinv : ∀ j, 1 ≤ j → j ≤ k → (Solve j).det ≠ 0) :
    (loop_entry num_frames pred_init cur_pose_garbage gt_poses gt0).cur_pose = 1 ∧
    (main_loop Solve depth_status num_frames k 1
      (loop_entry num_frames pred_init cur_pose_garbage gt_poses gt0)).cur_pose
        = ((List.range k).map fun j => inverse (Solve (1 + j))).prod ∧
    ((List.range k).map fun j => inverse (Solve (1 + j))).prod
        = inverse (((List.range k).reverse.map fun j => Solve (1 + j)).prod) ∧
    inverse (((List.range k).reverse.map fun j => Solve (1 + j)).prod)
        * ((List.range k).reverse.map fun j => Solve (1 + j)).prod = 1 ∧
    ∃ p, (main_loop Solve depth_status num_frames k 1
      (loop_entry num_frames pred_init cur_pose_garbage gt_poses gt0)).pred_poses
        = (main_loop Solve depth_status num_frames (k - 1) 1
            (loop_entry num_frames pred_init cur_pose_garbage gt_poses gt0)).pred_poses
          ++ [p] ∧
      ∀ (r : Fin 3) (c : Fin 4),
        p r c = (((List.range k).map fun j => inverse (Solve (1 + j))).prod) (Fin.castSucc r) c := by
  have h0 : (loop_entry num_frames pred_init cur_pose_garbage gt_poses gt0).cur_pose = 1 :=
    init_cur_pose_eq_one cur_pose_garbage
  have hA := main_loop_cur_pose Solve depth_status num_frames k 1
    (loop_entry num_frames pred_init cur_pose_garbage gt_poses gt0) (by omega)
    (fun j h1 h2 => hreach j h1 (by omega))
  have hB := main_loop_cur_pose Solve depth_status num_frames (k - 1) 1
    (loop_entry num_frames pred_init cur_pose_garbage gt_poses gt0) (by omega)
    (fun j h1 h2 => hreach j h1 (by omega))
  rw [h0] at hA hB
  simp only [Matrix.one_mul] at hA hB
  refine ⟨h0, hA.1, composed_eq_inverse_prod Solve k, ?_, ?_⟩
  · apply inverse_mul_cancel
    apply det_list_prod_ne_zero
    intro M hM
    simp only [List.mem_map, List.mem_reverse, List.mem_range] at hM
    obtain ⟨j, hj, rfl⟩ := hM
    exact hinv (1 + j) (by omega) (by omega)
  refine ⟨block34 (((List.range k).map fun j => inverse (Solve (1 + j))).prod), ?_,
    fun r c => rfl⟩
  rw [hA.2, hB.2]
  obtain ⟨m, rfl⟩ : ∃ m, k = m + 1 := ⟨k - 1, by omega⟩
  simp [composed, List.range_succ]

theorem cur_pose_after_frame_witness :
    (1 ≤ 2) ∧ (2 < 5) ∧ (∀ j, 1 ≤ j → j < 2 → (fun _ => (0 : GlobalStatus)) j ≠ -1) ∧
    (∀ j, 1 ≤ j → j ≤ 2 → ((fun _ => sample_pose) j).det ≠ 0) ∧
    ((loop_entry 5 (fun _ => (0 : Pose34 ℚ)) 0 [] 0).cur_pose = 1 ∧
    (main_loop (fun _ => sample_pose) (fun _ => 0) 5 2 1
      (loop_entry 5 (fun _ => (0 : Pose34 ℚ)) 0 [] 0)).cur_pose
        = ((List.range 2).map fun j => inverse ((fun _ => sample_pose) (1 + j))).prod ∧
    ((List.range 2).map fun j => inverse ((fun _ => sample_pose) (1 + j))).prod
        = inverse (((List.range 2).reverse.map fun j => (fun _ => sample_pose) (1 + j)).prod) ∧
    inverse (((List.range 2).reverse.map fun j => (fun _ => sample_pose) (1 + j)).prod)
        * ((List.range 2).reverse.map fun j => (fun _ => sample_pose) (1 + j)).prod = 1 ∧
    ∃ p, (main_loop (fun _ => sample_pose) (fun _ => 0) 5 2 1
      (loop_entry 5 (fun _ => (0 : Pose34 ℚ)) 0 [] 0)).pred_poses
        = (main_loop (fun _ => sample_pose) (fun _ => 0) 5 (2 - 1) 1
            (loop_entry 5 (fun _ => (0 : Pose34 ℚ)) 0 [] 0)).pred_poses
          ++ [p] ∧
      ∀ (r : Fin 3) (c : Fin 4),
        p r c = (((List.range 2).map fun j => inverse ((fun _ => sample_pose) (1 + j))).prod)
          (Fin.castSucc r) c) :=
  ⟨by decide, by decide, fun _ _ _ => by simp,
   fun _ _ _ => det_ne_zero_of_isRigid _ sample_pose_rigid,
   cur_pose_after_frame (fun _ => sample_pose) (fun _ => 0) 5 (fun _ => 0) 0 [] 0 2
    (by decide) (by decide) (fun _ _ _ => by simp)
    (fun _ _ _ => det_ne_zero_of_isRigid _ sample_pose_rigid)⟩

/-! ## Stored `float` values against exact products -/

theorem translation_x_mul {K : Type} [Field K] (a b : K) :
    translation_x a * translation_x b = translation_x (a + b) := by
  ext i j
  fin_cases i <;> fin_cases j <;>
    simp [translation_x, Matrix.mul_apply, Fin.sum_univ_four, add_comm, Matrix.vecHead,
      Matrix.vecTail]

theorem translation_x_zero {K : Type} [Field K] : translation_x (0 : K) = 1 := by
  ext i j
  fin_cases i <;> fin_cases j <;> simp [translation_x, Matrix.vecHead, Matrix.vecTail]

theorem inverse_translation_x {K : Type} [Field K] (t : K) :
    inverse (translation_x t) = translation_x (-t) := by
  rw [inverse_eq_inv]
  apply Matrix.inv_eq_left_inv
  rw [translation_x_mul, neg_add_cancel, translation_x_zero]

theorem det_translation_x {K : Type} [Field K] (t : K) : (translation_x t).det ≠ 0 := by
  have h : translation_x (-t) * translation_x t = 1 := by
    rw [translation_x_mul, neg_add_cancel, translation_x_zero]
  have h2 := congrArg Matrix.det h
  rw [Matrix.det_mul, Matrix.det_one] at h2
  intro h0
  rw [h0, mul_zero] at h2
  exact zero_ne_one h2

theorem is_binary32_zero : is_binary32 0 := ⟨0, 0, 0, by norm_num, by omega, by omega, by simp⟩

theorem is_binary32_one : is_binary32 1 := ⟨1, 0, 0, by norm_num, by omega, by omega, by simp⟩

theorem is_binary32_tenth : is_binary32 tenth :=
  ⟨13421773, 0, 27, by norm_num, by omega, by omega, by norm_num [tenth]⟩

theorem not_binary32_three_tenths : ¬ is_binary32 (-40265319 / 134217728) := by
  rintro ⟨m, a, b, hm, -, -, h⟩
  have hm2 := abs_lt.mp hm
  have h2 : (-40265319 : ℚ) * 2 ^ b = (m : ℚ) * 2 ^ (a + 27) := by
    have hb : (2 : ℚ) ^ b ≠ 0 := by positivity
    field_simp at h
    rw [pow_add]
    norm_num
    linarith
  have h3 : (-40265319 : ℤ) * 2 ^ b = m * 2 ^ (a + 27) := by exact_mod_cast h2
  rcases Nat.lt_or_ge b (a + 27) with hlt | hge
  · obtain ⟨d, hd⟩ : ∃ d, a + 27 = b + (d + 1) := ⟨a + 27 - b - 1, by omega⟩
    rw [hd, pow_add, pow_succ] at h3
    have hpos : (0 : ℤ) < 2 ^ b := by positivity
    have h4 : (-40265319 : ℤ) = m * 2 ^ d * 2 := by
      apply mul_right_cancel₀ hpos.ne'
      rw [h3]
      ring
    omega
  · obtain ⟨d, hd⟩ : ∃ d, b = (a + 27) + d := ⟨b - (a + 27), by omega⟩
    rw [hd, pow_add] at h3
    have hpos : (0 : ℤ) < 2 ^ (a + 27) := by positivity
    have h4 : m = -40265319 * 2 ^ d := by
      apply mul_right_cancel₀ hpos.ne'
      rw [← h3]
      ring
    have hd1 : (1 : ℤ) ≤ 2 ^ d := one_le_pow₀ (by norm_num)
    norm_num at hm2
    omega

/-- C4 (counterexample): three frames whose relative pose is the translation by `0.1f`, a
matrix of `float` values with non-zero determinant. The product `T_1⁻¹ * T_2⁻¹ * T_3⁻¹` named
by the claim has the entry `-40265319 / 134217728` in row 0, column 3, which is not a `float`
value: no `Affine4f`, so not `cur_pose` either, equals that product. -/
theorem exact_product_not_binary32 :
    (∀ i j, is_binary32 (translation_x tenth i j)) ∧ (translation_x tenth).det ≠ 0 ∧
    (((List.range 3).map fun j => inverse ((fun _ => translation_x tenth) (1 + j))).prod) 0 3
      = -40265319 / 134217728 ∧
    ¬ ∃ cur_pose : Affine4 ℚ, (∀ i j, is_binary32 (cur_pose i j)) ∧
      cur_pose = ((List.range 3).map fun j => inverse ((fun _ => translation_x tenth) (1 + j))).prod := by
  have hprod : ((List.range 3).map fun j => inverse ((fun _ => translation_x tenth) (1 + j))).prod
      = translation_x (-tenth + (-tenth + -tenth)) := by
    simp only [List.range_succ, List.range_zero, List.nil_append, List.map_append, List.map_cons,
      List.map_nil, List.cons_append, List.prod_cons, List.prod_nil, mul_one,
      inverse_translation_x, translation_x_mul]
  have hentry : (translation_x (-tenth + (-tenth + -tenth)) : Affine4 ℚ) 0 3
      = -40265319 / 134217728 := by
    simp only [translation_x, tenth]
    norm_num
  refine ⟨?_, det_translation_x tenth, ?_, ?_⟩
  · intro i j
    fin_cases i <;> fin_cases j <;>
      first
        | exact is_binary32_zero
        | exact is_binary32_one
        | exact is_binary32_tenth
  · rw [hprod, hentry]
  · rintro ⟨M, hM, rfl⟩
    have := hM 0 3
    rw [hprod, hentry] at this
    exact not_binary32_three_tenths this

/-! ## Facts on arrays and lines -/

theorem holds_append (buf : CharBuf) (a b : List Char) :
    ∀ s, holds buf s (a ++ b) ↔ holds buf s a ∧ holds buf (s + a.length) b := by
  induction a with
  | nil => intro s; simp [holds]
  | cons c a ih =>
    intro s
    show (buf s = c ∧ holds buf (s + 1) (a ++ b)) ↔
      (buf s = c ∧ holds buf (s + 1) a) ∧ holds buf (s + (a.length + 1)) b
    rw [ih (s + 1), show s + 1 + a.length = s + (a.length + 1) by omega, and_assoc]

theorem holds_write_c_str (buf : CharBuf) (l : List Char) :
    holds (write_c_str buf l) 0 (l ++ [NUL]) := by
  have key : ∀ (t : List Char) (s : Nat) (g : CharBuf),
      (∀ j (h : j < t.length), g (s + j) = t.get ⟨j, h⟩) → holds g s t := by
    intro t
    induction t with
    | nil => intro s g _; trivial
    | cons c t ih =>
      intro s g hg
      refine ⟨by simpa using hg 0 (by simp), ih (s + 1) g ?_⟩
      intro j hj
      have := hg (j + 1) (by simp; omega)
      rw [show s + 1 + j = s + (j + 1) by omega]
      simpa using this
  apply key
  intro j hj
  simp only [Nat.zero_add, write_c_str]
  by_cases h1 : j < l.length
  · rw [dif_pos h1]
    simp [List.getElem_append_left, h1]
  · rw [dif_neg h1]
    have hj2 : j = l.length := by simp at hj; omega
    subst hj2
    simp

theorem take_line_cons (c : Char) (cs : List Char) :
    take_line (c :: cs) = if c = NL then [] else c :: take_line cs := by
  unfold take_line
  by_cases h : c = NL <;> simp [List.takeWhile_cons, h]

theorem drop_line_cons (c : Char) (cs : List Char) :
    drop_line (c :: cs) = if c = NL then cs else drop_line cs := by
  unfold drop_line
  by_cases h : c = NL <;> simp [List.dropWhile_cons, h]

/-- What `extract_line` does, in terms of lines: with enough room the first line is stored and
removed from the text; otherwise failbit is set. -/
theorem extract_line_spec : ∀ (room : Nat) (cs : List Char),
    ((take_line cs).length ≤ room →
      (extract_line room cs).stored = take_line cs ∧
      (extract_line room cs).rest = drop_line cs ∧
      (extract_line room cs).failbit = false ∧
      ((extract_line room cs).gcount = 0 ↔ cs = []) ∧
      ((extract_line room cs).eofbit = true → drop_line cs = [])) ∧
    (room < (take_line cs).length → (extract_line room cs).failbit = true) := by
  intro room cs
  induction cs generalizing room with
  | nil => simp [extract_line, take_line, drop_line]
  | cons c cs ih =>
    rw [take_line_cons, drop_line_cons]
    by_cases h : c = NL
    · cases room <;> simp [extract_line, h]
    · cases room with
      | zero => simp [extract_line, h]
      | succ room =>
        have := ih room
        simp only [extract_line, h, if_false, List.length_cons, Nat.add_le_add_iff_right,
          Nat.add_lt_add_iff_right]
        refine ⟨fun hle => ?_, fun hlt => (this.2 hlt)⟩
        obtain ⟨h1, h2, h3, -, h5⟩ := this.1 hle
        exact ⟨by rw [h1], h2, h3, by simp, h5⟩

theorem getline_spec (pf : IfStream) (raw : CharBuf) (hpf : pf.readable) :
    ((getline pf raw RAW_LINE_SIZE).1.failbit = false ↔
      pf.rest ≠ [] ∧ (take_line pf.rest).length < RAW_LINE_SIZE) ∧
    ((getline pf raw RAW_LINE_SIZE).1.failbit = false →
      (getline pf raw RAW_LINE_SIZE).1.rest = drop_line pf.rest ∧
      (getline pf raw RAW_LINE_SIZE).1.readable ∧
      (getline pf raw RAW_LINE_SIZE).2 = write_c_str raw (take_line pf.rest)) := by
  obtain ⟨hf, he⟩ := hpf
  unfold getline
  by_cases heof : pf.eofbit = true
  · have hrest := he heof
    simp [heof, hrest]
  · have heof2 : pf.eofbit = false := by simpa using heof
    simp only [heof2, hf, Bool.or_self, Bool.false_eq_true, if_false]
    have hs := extract_line_spec (RAW_LINE_SIZE - 1) pf.rest
    by_cases hlen : (take_line pf.rest).length ≤ RAW_LINE_SIZE - 1
    · obtain ⟨h1, h2, h3, h4, h5⟩ := hs.1 hlen
      have hlt : (take_line pf.rest).length < RAW_LINE_SIZE := by
        simp only [RAW_LINE_SIZE] at hlen ⊢; omega
      simp only [h1, h2, h3, Bool.false_or, beq_eq_false_iff_ne, ne_eq, h4, hlt, and_true,
        IfStream.readable, true_and]
      exact fun hne => ⟨hne, h5⟩
    · have hlt : RAW_LINE_SIZE - 1 < (take_line pf.rest).length := by omega
      have h3 := hs.2 hlt
      have hnlt : ¬ (take_line pf.rest).length < RAW_LINE_SIZE := by
        simp only [RAW_LINE_SIZE] at hlt ⊢; omega
      simp [h3, hnlt]

/-! ## Scanning one line -/

/-- The iteration bound given to `scan_field` by `parse_params` is enough: with more
iterations allowed the result is the same, so `none` always stands for an access outside
`raw_line` or `sub`. -/
theorem scan_field_enough_fuel (raw : CharBuf) (extra : Nat) :
    ∀ (fuel : Nat) (sub : CharBuf) (scaner sub_idx : Nat), RAW_LINE_SIZE + 1 ≤ scaner + fuel →
      scan_field raw (fuel + extra) sub scaner sub_idx = scan_field raw fuel sub scaner sub_idx := by
  intro fuel
  induction fuel with
  | zero =>
    intro sub scaner sub_idx h
    cases extra with
    | zero => rfl
    | succ e =>
      have hge : RAW_LINE_SIZE ≤ scaner := by omega
      simp only [Nat.zero_add, scan_field, if_pos hge]
  | succ fuel ih =>
    intro sub scaner sub_idx h
    have hrec := fun sub1 => ih sub1 (scaner + 1) (sub_idx + 1) (by omega)
    rw [show fuel + 1 + extra = (fuel + extra) + 1 by omega]
    simp only [scan_field, hrec]

theorem holds_update_of_le (buf : CharBuf) (k : Nat) (v : Char) :
    ∀ (l : List Char) (s : Nat), holds buf s l → s + l.length ≤ k →
      holds (Function.update buf k v) s l := by
  intro l
  induction l with
  | nil => intro s _ _; trivial
  | cons c l ih =>
    intro s h hk
    simp only [List.length_cons] at hk
    refine ⟨?_, ih (s + 1) h.2 (by omega)⟩
    rw [Function.update_noteq (by omega)]
    exact h.1

theorem scan_field_field (raw : CharBuf) (t : Char) (ht : t = SP ∨ t = NUL) :
    ∀ (f : List Char) (fuel : Nat) (sub : CharBuf) (scaner sub_idx : Nat),
      (∀ c ∈ f, c ≠ SP ∧ c ≠ NUL) → holds raw scaner (f ++ [t]) →
      scaner + f.length < RAW_LINE_SIZE → sub_idx + f.length ≤ SUB_SIZE → f.length < fuel →
      ∃ sub1, scan_field raw fuel sub scaner sub_idx
          = some (sub1, scaner + f.length, sub_idx + f.length) ∧
        holds sub1 sub_idx f ∧ ∀ j, j < sub_idx → sub1 j = sub j := by
  intro f
  induction f with
  | nil =>
    intro fuel sub scaner sub_idx _ hh hs _ hfuel
    obtain ⟨m, rfl⟩ : ∃ m, fuel = m + 1 := ⟨fuel - 1, by simp at hfuel; omega⟩
    have hraw : raw scaner = t := hh.1
    have hs2 : ¬ RAW_LINE_SIZE ≤ scaner := by simp at hs; omega
    refine ⟨sub, ?_, trivial, fun _ _ => rfl⟩
    rw [scan_field, if_neg hs2, if_neg]
    · simp
    · rw [hraw]
      rcases ht with h | h <;> simp [h]
  | cons c f ih =>
    intro fuel sub scaner sub_idx hc hh hs hsub hfuel
    simp only [List.length_cons] at hs hsub hfuel
    obtain ⟨m, rfl⟩ : ∃ m, fuel = m + 1 := ⟨fuel - 1, by omega⟩
    have hraw : raw scaner = c := hh.1
    have hs2 : ¬ RAW_LINE_SIZE ≤ scaner := by omega
    have hsub2 : ¬ SUB_SIZE ≤ sub_idx := by omega
    have hcc := hc c (List.mem_cons_self _ _)
    obtain ⟨sub1, h1, h2, h3⟩ := ih m (Function.update sub sub_idx (raw scaner)) (scaner + 1)
      (sub_idx + 1) (fun d hd => hc d (List.mem_cons_of_mem _ hd)) hh.2 (by omega) (by omega)
      (by omega)
    refine ⟨sub1, ?_, ⟨?_, h2⟩, ?_⟩
    · rw [scan_field, if_neg hs2, if_pos (by rw [hraw]; exact hcc), if_neg hsub2, h1]
      simp only [List.length_cons]
      rw [show scaner + 1 + f.length = scaner + (f.length + 1) by omega,
        show sub_idx + 1 + f.length = sub_idx + (f.length + 1) by omega]
    · rw [h3 sub_idx (by omega), Function.update_same, hraw]
    · intro j hj
      rw [h3 j (by omega), Function.update_noteq (by omega)]

theorem c_str_of_holds (buf : CharBuf) :
    ∀ (f : List Char) (n i : Nat), holds buf i (f ++ [NUL]) → (∀ c ∈ f, c ≠ NUL) →
      f.length < n → c_str buf n i = f := by
  intro f
  induction f with
  | nil =>
    intro n i hh _ hn
    obtain ⟨m, rfl⟩ : ∃ m, n = m + 1 := ⟨n - 1, by simp at hn; omega⟩
    have : buf i = NUL := hh.1
    simp [c_str, this]
  | cons c f ih =>
    intro n i hh hc hn
    simp only [List.length_cons] at hn
    obtain ⟨m, rfl⟩ : ∃ m, n = m + 1 := ⟨n - 1, by omega⟩
    have hb : buf i = c := hh.1
    have hne : c ≠ NUL := hc c (List.mem_cons_self _ _)
    rw [c_str, hb, if_neg hne, ih m (i + 1) hh.2 (fun d hd => hc d (List.mem_cons_of_mem _ hd))
      (by omega)]

/-- One field followed by a space or by the end of the line: the loop body of `parse_params`
reads it into `sub` and hands exactly the field to `atof`. -/
theorem scan_then_c_str (raw : CharBuf) (t : Char) (ht : t = SP ∨ t = NUL) (f : List Char)
    (sub : CharBuf) (scaner : Nat) (hf : f.length < SUB_SIZE) (hc : ∀ c ∈ f, c ≠ SP ∧ c ≠ NUL)
    (hh : holds raw scaner (f ++ [t])) (hs : scaner + f.length < RAW_LINE_SIZE) :
    ∃ sub1, scan_field raw (RAW_LINE_SIZE + 1 - scaner) sub scaner 0
        = some (sub1, scaner + f.length, f.length) ∧
      c_str (Function.update sub1 f.length NUL) SUB_SIZE 0 = f := by
  obtain ⟨sub1, h1, h2, -⟩ := scan_field_field raw t ht f (RAW_LINE_SIZE + 1 - scaner) sub scaner 0
    hc hh hs (by omega) (by omega)
  rw [Nat.zero_add] at h1
  refine ⟨sub1, h1, ?_⟩
  apply c_str_of_holds _ f SUB_SIZE 0 _ (fun c hcm => (hc c hcm).2) hf
  rw [holds_append]
  refine ⟨holds_update_of_le sub1 f.length NUL f 0 h2 (by omega), ?_, trivial⟩
  show Function.update sub1 f.length NUL (0 + f.length) = NUL
  rw [Nat.zero_add, Function.update_same]

theorem parse_params_fields {D F : Type} (atof : List Char → D) (toFloat : D → F)
    (raw : CharBuf) :
    ∀ (fs : List (List Char)) (param_i : Nat) (sub : CharBuf) (scaner : Nat) (tmp : Pose34 F),
      (∀ f ∈ fs, f.length < SUB_SIZE ∧ ∀ c ∈ f, c ≠ SP ∧ c ≠ NUL) →
      holds raw scaner (join_fields fs ++ [NUL]) →
      scaner + (join_fields fs).length < RAW_LINE_SIZE →
      ∃ sub1 sc1 p, parse_params atof toFloat raw fs.length param_i sub scaner tmp
          = some (sub1, sc1, p) ∧
        ∀ (r : Fin 3) (c : Fin 4),
          (∀ m f, fs[m]? = some f → 4 * r.val + c.val = param_i + m →
            p r c = toFloat (atof f)) ∧
          (4 * r.val + c.val < param_i → p r c = tmp r c) := by
  intro fs
  induction fs with
  | nil =>
    intro param_i sub scaner tmp _ _ _
    exact ⟨sub, scaner, tmp, rfl, fun r c => ⟨fun m f hm => by simp at hm, fun _ => rfl⟩⟩
  | cons f fs ih =>
    intro param_i sub scaner tmp hfs hh hs
    have hf := hfs f (List.mem_cons_self _ _)
    cases fs with
    | nil =>
      simp only [join_fields] at hh hs
      obtain ⟨sub1, h1, h2⟩ := scan_then_c_str raw NUL (Or.inr rfl) f sub scaner hf.1 hf.2 hh hs
      refine ⟨Function.update sub1 f.length NUL, scaner + f.length + 1,
        set_coeff tmp param_i (toFloat (atof f)), ?_, ?_⟩
      · simp only [List.length_cons, List.length_nil, Nat.zero_add, parse_params, h1]
        rw [if_neg (by have := hf.1; omega), h2]
      · intro r c
        refine ⟨fun m g hm he => ?_, fun hlt => ?_⟩
        · cases m with
          | zero =>
            simp only [List.getElem?_cons_zero, Option.some.injEq] at hm
            subst hm
            simp [set_coeff, he]
          | succ m => simp at hm
        · simp only [set_coeff, Matrix.of_apply]
          rw [if_neg (by omega)]
    | cons g fs =>
      simp only [join_fields] at hh hs
      rw [show f ++ SP :: join_fields (g :: fs) ++ [NUL]
        = (f ++ [SP]) ++ (join_fields (g :: fs) ++ [NUL]) by simp, holds_append] at hh
      simp only [List.length_append, List.length_cons, List.length_nil, Nat.zero_add] at hh hs
      obtain ⟨sub1, h1, h2⟩ := scan_then_c_str raw SP (Or.inl rfl) f sub scaner hf.1 hf.2 hh.1
        (by omega)
      obtain ⟨sub3, sc3, p, h3, h4⟩ := ih (param_i + 1) (Function.update sub1 f.length NUL)
        (scaner + f.length + 1) (set_coeff tmp param_i (toFloat (atof f)))
        (fun d hd => hfs d (List.mem_cons_of_mem _ hd))
        (by rw [show scaner + f.length + 1 = scaner + (f.length + 1) by omega]; exact hh.2)
        (by omega)
      refine ⟨sub3, sc3, p, ?_, ?_⟩
      · rw [List.length_cons, parse_params]
        simp only [h1]
        rw [if_neg (by have := hf.1; omega), h2]
        exact h3
      · intro r c
        refine ⟨fun m d hm he => ?_, fun hlt => ?_⟩
        · cases m with
          | zero =>
            simp only [List.getElem?_cons_zero, Option.some.injEq] at hm
            subst hm
            rw [(h4 r c).2 (by omega)]
            simp [set_coeff, he]
          | succ m =>
            simp only [List.getElem?_cons_succ] at hm
            exact (h4 r c).1 m d hm (by omega)
        · rw [(h4 r c).2 (by omega)]
          simp only [set_coeff, Matrix.of_apply]
          rw [if_neg (by omega)]

/-- A pose line held by `raw_line` is parsed without leaving the arrays, and yields the matrix
whose entry `(r, c)` is the value of field `4 * r + c`. -/
theorem parse_params_pose_line {D F : Type} (atof : List Char → D) (toFloat : D → F)
    (raw sub : CharBuf) (tmp : Pose34 F) (line : List Char) (fields : List (List Char))
    (hline : pose_line line fields) (hraw : holds raw 0 (line ++ [NUL])) :
    ∃ sub1 sc1 p, parse_params atof toFloat raw 12 0 sub 0 tmp = some (sub1, sc1, p) ∧
      ∀ (r : Fin 3) (c : Fin 4) (f : List Char),
        fields[4 * r.val + c.val]? = some f → p r c = toFloat (atof f) := by
  obtain ⟨h12, hok, hjoin, hlen⟩ := hline
  subst hjoin
  obtain ⟨sub1, sc1, p, h1, h2⟩ := parse_params_fields atof toFloat raw fields 0 sub 0 tmp
    (fun f hf => ⟨(hok f hf).1, fun c hc => ⟨((hok f hf).2 c hc).1, ((hok f hf).2 c hc).2.1⟩⟩)
    hraw (by omega)
  rw [h12] at h1
  exact ⟨sub1, sc1, p, h1, fun r c f hf => (h2 r c).1 _ f hf (by omega)⟩

/-! ## The line loop of `load_gt_pose` -/

theorem read_poses_returned {D F : Type} (atof : List Char → D) (toFloat : D → F) :
    ∀ (n i : Nat) (pf : IfStream) (raw sub : CharBuf) (tmp : Pose34 F)
      (gt gt1 : List (Pose34 F)),
      pf.readable → i + n ≤ gt.length →
      read_poses atof toFloat n i pf raw sub tmp gt = .returned gt1 →
      gt1.length = gt.length ∧ (∀ m, m < i → gt1[m]? = gt[m]?) ∧
      ∀ m, m < n → line_readable pf.rest m ∧
        ∃ raw_m sub_m tmp_m sub1 sc1 p, holds raw_m 0 (line_at pf.rest m ++ [NUL]) ∧
          parse_params atof toFloat raw_m 12 0 sub_m 0 tmp_m = some (sub1, sc1, p) ∧
          gt1[i + m]? = some p := by
  intro n
  induction n with
  | zero =>
    intro i pf raw sub tmp gt gt1 _ _ h
    simp only [read_poses, Outcome.returned.injEq] at h
    subst h
    exact ⟨rfl, fun _ _ => rfl, fun m hm => absurd hm (Nat.not_lt_zero m)⟩
  | succ n ih =>
    intro i pf raw sub tmp gt gt1 hpf hlen h
    rw [read_poses] at h
    obtain ⟨hiff, hsucc⟩ := getline_spec pf raw hpf
    by_cases hfail : (getline pf raw RAW_LINE_SIZE).1.failbit = true
    · simp [hfail] at h
    · have hfail2 : (getline pf raw RAW_LINE_SIZE).1.failbit = false := by simpa using hfail
      obtain ⟨hrest, hread, hbuf⟩ := hsucc hfail2
      simp only [hfail2, Bool.false_eq_true, if_false] at h
      cases hp : parse_params atof toFloat (getline pf raw RAW_LINE_SIZE).2 12 0 sub 0 tmp with
      | none => simp [hp] at h
      | some res =>
        obtain ⟨sub1, sc1, tmp1⟩ := res
        simp only [hp] at h
        obtain ⟨h1, h2, h3⟩ := ih (i + 1) _ _ _ _ _ gt1 hread
          (by rw [List.length_set]; omega) h
        rw [List.length_set] at h1
        refine ⟨h1, fun m hm => ?_, fun m hm => ?_⟩
        · rw [h2 m (by omega), List.getElem?_set_ne (by omega)]
        · cases m with
          | zero =>
            refine ⟨hiff.mp hfail2, (getline pf raw RAW_LINE_SIZE).2, sub, tmp, sub1, sc1, tmp1,
              ?_, hp, ?_⟩
            · rw [hbuf]
              exact holds_write_c_str raw _
            · rw [Nat.add_zero, h2 i (by omega), List.getElem?_set_self (by omega)]
          | succ m =>
            obtain ⟨ha, raw_m, sub_m, tmp_m, sub2, sc2, p, hb, hc, hd⟩ := h3 m (by omega)
            rw [hrest] at ha hb
            refine ⟨ha, raw_m, sub_m, tmp_m, sub2, sc2, p, hb, hc, ?_⟩
            rw [← hd]
            congr 1
            omega

/-- One iteration of the line loop on a readable pose line: the loop goes on with the next
line. -/
theorem read_poses_step {D F : Type} (atof : List Char → D) (toFloat : D → F)
    (n i : Nat) (pf : IfStream) (raw sub : CharBuf) (tmp : Pose34 F) (gt : List (Pose34 F))
    (fields : List (List Char)) (hpf : pf.readable) (hr : line_readable pf.rest 0)
    (hline : pose_line (line_at pf.rest 0) fields) :
    ∃ pf1 raw1 sub1 tmp1, pf1.readable ∧ pf1.rest = drop_line pf.rest ∧
      read_poses atof toFloat (n + 1) i pf raw sub tmp gt
        = read_poses atof toFloat n (i + 1) pf1 raw1 sub1 tmp1 (gt.set i tmp1) := by
  obtain ⟨hiff, hsucc⟩ := getline_spec pf raw hpf
  have hfail2 := hiff.mpr hr
  obtain ⟨hrest, hread, hbuf⟩ := hsucc hfail2
  obtain ⟨sub1, sc1, p, hp, -⟩ := parse_params_pose_line atof toFloat
    (getline pf raw RAW_LINE_SIZE).2 sub tmp (line_at pf.rest 0) fields hline
    (by rw [hbuf]; exact holds_write_c_str raw _)
  refine ⟨(getline pf raw RAW_LINE_SIZE).1, (getline pf raw RAW_LINE_SIZE).2, sub1, p,
    hread, hrest, ?_⟩
  rw [read_poses]
  simp only [hfail2, Bool.false_eq_true, if_false, hp]

theorem read_poses_pose_lines {D F : Type} (atof : List Char → D) (toFloat : D → F) :
    ∀ (n i : Nat) (pf : IfStream) (raw sub : CharBuf) (tmp : Pose34 F) (gt : List (Pose34 F)),
      pf.readable →
      (∀ m, m < n → line_readable pf.rest m ∧ ∃ fields, pose_line (line_at pf.rest m) fields) →
      ∃ gt1, read_poses atof toFloat n i pf raw sub tmp gt = .returned gt1 := by
  intro n
  induction n with
  | zero => intro i pf raw sub tmp gt _ _; exact ⟨gt, rfl⟩
  | succ n ih =>
    intro i pf raw sub tmp gt hpf hall
    obtain ⟨hr, fields, hline⟩ := hall 0 (by omega)
    obtain ⟨pf1, raw1, sub1, tmp1, hread, hrest, heq⟩ :=
      read_poses_step atof toFloat n i pf raw sub tmp gt fields hpf hr hline
    rw [heq]
    apply ih (i + 1) pf1 raw1 sub1 tmp1 _ hread
    intro m hm
    have := hall (m + 1) (by omega)
    rw [hrest]
    exact this

theorem join_fields_length_pos : ∀ (fs : List (List Char)), 2 ≤ fs.length →
    0 < (join_fields fs).length := by
  intro fs h
  match fs, h with
  | f :: g :: fs, _ => simp [join_fields]

theorem pose_line_readable (content : List Char) (i : Nat) (fields : List (List Char))
    (h : pose_line (line_at content i) fields) : line_readable content i := by
  obtain ⟨h12, -, hjoin, hlen⟩ := h
  refine ⟨fun hnil => ?_, hlen⟩
  have hpos := join_fields_length_pos fields (by omega)
  rw [← hjoin, line_at, hnil] at hpos
  simp [take_line] at hpos

/-- C8: when `load_gt_pose` returns, every line `i < gt_poses.size()` of the pose file that is
shorter than 500 characters and consists of exactly 12 fields (each shorter than 100
characters) separated by single spaces has been stored in `gt_poses[i]` as the 3x4 pose whose
entry `(r, c)` is the float value of field `4 * r + c`; and when the first
`gt_poses.size()` lines all have that form, `load_gt_pose` does return. (The vector size is
held in an `unsigned int`.) -/
theorem load_gt_pose_stores_pose_lines {D F : Type} (atof : List Char → D) (toFloat : D → F)
    (content : List Char) (raw_line0 sub0 : CharBuf) (tmp_pose0 : Pose34 F)
    (gt_poses : List (Pose34 F)) (hsize : gt_poses.length < 2 ^ 32) :
    (∀ gt1, load_gt_pose atof toFloat (some content) raw_line0 sub0 tmp_pose0 gt_poses
        = .returned gt1 →
      ∀ i fields, i < gt_poses.length → pose_line (line_at content i) fields →
        ∃ p, gt1[i]? = some p ∧ ∀ (r : Fin 3) (c : Fin 4) (f : List Char),
          fields[4 * r.val + c.val]? = some f → p r c = toFloat (atof f)) ∧
    ((∀ i, i < gt_poses.length → ∃ fields, pose_line (line_at content i) fields) →
      ∃ gt1, load_gt_pose atof toFloat (some content) raw_line0 sub0 tmp_pose0 gt_poses
        = .returned gt1) := by
  have hmod : gt_poses.length % 2 ^ 32 = gt_poses.length := Nat.mod_eq_of_lt hsize
  have hpf : IfStream.readable ⟨content, false, false⟩ := ⟨rfl, fun h => Bool.noConfusion h⟩
  constructor
  · intro gt1 hret i fields hi hline
    simp only [load_gt_pose, hmod] at hret
    obtain ⟨-, -, h3⟩ := read_poses_returned atof toFloat _ 0 _ _ _ _ _ gt1 hpf (by omega) hret
    obtain ⟨-, raw_i, sub_i, tmp_i, sub1, sc1, p, hb, hc, hd⟩ := h3 i hi
    obtain ⟨sub2, sc2, q, hq, hentries⟩ := parse_params_pose_line atof toFloat raw_i sub_i tmp_i
      (line_at content i) fields hline hb
    rw [hq] at hc
    simp only [Option.some.injEq, Prod.mk.injEq] at hc
    obtain ⟨-, -, rfl⟩ := hc
    rw [Nat.zero_add] at hd
    exact ⟨q, hd, hentries⟩
  · intro hall
    simp only [load_gt_pose, hmod]
    apply read_poses_pose_lines atof toFloat _ 0 _ _ _ _ _ hpf
    intro m hm
    obtain ⟨fields, hline⟩ := hall m hm
    exact ⟨pose_line_readable content m fields hline, fields, hline⟩

theorem sample_file_pose_line (i : Nat) (hi : i < 5) :
    pose_line (line_at sample_file i) (sample_fields i) := by
  unfold pose_line field_ok
  interval_cases i <;> decide

theorem load_gt_pose_stores_pose_lines_witness :
    ([0, 0] : List (Pose34 ℚ)).length < 2 ^ 32 ∧
    ∃ gt1, load_gt_pose atof_digits id (some sample_file) (fun _ => 'x') (fun _ => 'y') 0
        [0, 0] = .returned gt1 ∧
      ∃ p, gt1[1]? = some p ∧ ∀ (r : Fin 3) (c : Fin 4) (f : List Char),
        (sample_fields 1)[4 * r.val + c.val]? = some f → p r c = id (atof_digits f) := by
  have T := load_gt_pose_stores_pose_lines atof_digits id sample_file (fun _ => 'x')
    (fun _ => 'y') 0 ([0, 0] : List (Pose34 ℚ)) (by decide)
  obtain ⟨gt1, h⟩ := T.2 fun i hi =>
    ⟨sample_fields i, sample_file_pose_line i (by simp at hi; omega)⟩
  exact ⟨by decide, gt1, h, T.1 gt1 h 1 (sample_fields 1) (by decide)
    (sample_file_pose_line 1 (by decide))⟩

set_option maxRecDepth 8192

theorem load_gt_pose_length {D F : Type} (atof : List Char → D) (toFloat : D → F)
    (file : Option (List Char)) (raw_line0 sub0 : CharBuf) (tmp_pose0 : Pose34 F)
    (gt_poses gt1 : List (Pose34 F))
    (h : load_gt_pose atof toFloat file raw_line0 sub0 tmp_pose0 gt_poses = .returned gt1) :
    gt1.length = gt_poses.length := by
  cases file with
  | none => simp [load_gt_pose] at h
  | some content =>
    simp only [load_gt_pose] at h
    exact (read_poses_returned atof toFloat _ 0 _ _ _ _ _ gt1
      ⟨rfl, fun h => Bool.noConfusion h⟩
      (by rw [Nat.zero_add]; exact Nat.mod_le _ _) h).1

/-- When the pose file loads and the depth of frame 0 is computed, `main` runs the frame loop
from the entry state and returns. -/
theorem main_returned {K D : Type} [Field K] (atof : List Char → D) (toFloat : D → K)
    (num_frames : Nat) (file : Option (List Char))
    (Solve : Nat → Affine4 K) (depth_status : Nat → GlobalStatus)
    (raw_line0 sub0 : CharBuf) (tmp_pose0 : Pose34 K) (gt_init pred_init : Nat → Pose34 K)
    (cur_pose_garbage : Affine4 K) (hn : 0 < num_frames)
    (hload : (load_gt_pose atof toFloat file raw_line0 sub0 tmp_pose0
      ((List.range num_frames).map gt_init)).isReturned = true)
    (h0 : depth_status 0 ≠ -1) :
    ∃ gt_poses gt0,
      load_gt_pose atof toFloat file raw_line0 sub0 tmp_pose0
        ((List.range num_frames).map gt_init) = .returned gt_poses ∧
      gt_poses.head? = some gt0 ∧
      main atof toFloat num_frames file Solve depth_status raw_line0 sub0 tmp_pose0 gt_init
        pred_init cur_pose_garbage
        = .returned
          { main_loop Solve depth_status num_frames (num_frames - 1) 1
              (loop_entry num_frames pred_init cur_pose_garbage gt_poses gt0) with
            trace := (main_loop Solve depth_status num_frames (num_frames - 1) 1
              (loop_entry num_frames pred_init cur_pose_garbage gt_poses gt0)).trace
                ++ [Event.cout Msg.sequence_done, Event.eval_pose] } := by
  cases hout : load_gt_pose atof toFloat file raw_line0 sub0 tmp_pose0
      ((List.range num_frames).map gt_init) with
  | exited code => rw [hout] at hload; exact absurd hload (by simp [Outcome.isReturned])
  | undefined => rw [hout] at hload; exact absurd hload (by simp [Outcome.isReturned])
  | returned gt_poses =>
    have hlen := load_gt_pose_length atof toFloat file raw_line0 sub0 tmp_pose0 _ gt_poses hout
    rw [List.length_map, List.length_range] at hlen
    cases gt_poses with
    | nil => simp at hlen; omega
    | cons gt0 rest =>
      refine ⟨gt0 :: rest, gt0, rfl, rfl, ?_⟩
      simp only [main, hout, List.head?_cons, h0, if_false]

/-- C1 (code evaluated at the failing input): in the run over 5 frames, the previous image
pyramid and the previous depth pyramid passed to `Solve` are those of frame 0 at every frame,
so at frame 2 (and 3, 4) they are not the ones of frame `frame_id - 1`. -/
theorem solve_receives_frame0_pyramids :
    (sample_run.state?.map fun s => solve_calls s.trace) =
      some [(⟨4, 0⟩, ⟨4, 0, MapKind.left_disp⟩, ⟨4, 1⟩),
            (⟨4, 0⟩, ⟨4, 0, MapKind.left_disp⟩, ⟨4, 2⟩),
            (⟨4, 0⟩, ⟨4, 0, MapKind.left_disp⟩, ⟨4, 3⟩),
            (⟨4, 0⟩, ⟨4, 0, MapKind.left_disp⟩, ⟨4, 4⟩)] := by
  decide

/-- C2 (code evaluated at the failing input): the depth pyramid of frame 0 is built on the
disparity map `pre_left_disp`; those built inside the loop use the depth map. -/
theorem frame0_depth_pyramid_on_disparity :
    (sample_run.state?.map fun s => depth_pyramids s.trace) =
      some [⟨4, 0, MapKind.left_disp⟩, ⟨4, 1, MapKind.left_dep⟩, ⟨4, 2, MapKind.left_dep⟩,
            ⟨4, 3, MapKind.left_dep⟩, ⟨4, 4, MapKind.left_dep⟩] := by
  decide

/-- C6: for input images of which one is empty or whose dimensions differ, `ComputeDepth`
returns the failure status `-1` and leaves the three output maps as they were. -/
theorem ComputeDepth_rejects_bad_images {V : Type}
    (strategy : Mat V → Mat V → DepthMaps V → GlobalStatus × DepthMaps V)
    (left_img right_img : Mat V) (out : DepthMaps V)
    (h : left_img.empty = true ∨ right_img.empty = true ∨ left_img.rows ≠ right_img.rows ∨
      left_img.cols ≠ right_img.cols) :
    (ComputeDepth strategy left_img right_img out).1 = -1 ∧
    (ComputeDepth strategy left_img right_img out).2 = out := by
  unfold ComputeDepth
  rw [if_pos]
  · exact ⟨rfl, rfl⟩
  · rcases h with h | h | h | h <;> simp [h]

theorem ComputeDepth_rejects_bad_images_witness :
    ((⟨2, 3, fun _ _ => 0⟩ : Mat Nat).empty = true ∨ (⟨2, 4, fun _ _ => 0⟩ : Mat Nat).empty = true ∨
      (⟨2, 3, fun _ _ => 0⟩ : Mat Nat).rows ≠ (⟨2, 4, fun _ _ => 0⟩ : Mat Nat).rows ∨
      (⟨2, 3, fun _ _ => 0⟩ : Mat Nat).cols ≠ (⟨2, 4, fun _ _ => 0⟩ : Mat Nat).cols) ∧
    ((ComputeDepth (fun _ _ o => (0, o)) (⟨2, 3, fun _ _ => 0⟩ : Mat Nat) ⟨2, 4, fun _ _ => 0⟩
      ⟨⟨2, 3, fun _ _ => 7⟩, ⟨2, 3, fun _ _ => 8⟩, ⟨2, 3, fun _ _ => 9⟩⟩).1 = -1 ∧
     (ComputeDepth (fun _ _ o => (0, o)) (⟨2, 3, fun _ _ => 0⟩ : Mat Nat) ⟨2, 4, fun _ _ => 0⟩
      ⟨⟨2, 3, fun _ _ => 7⟩, ⟨2, 3, fun _ _ => 8⟩, ⟨2, 3, fun _ _ => 9⟩⟩).2
        = ⟨⟨2, 3, fun _ _ => 7⟩, ⟨2, 3, fun _ _ => 8⟩, ⟨2, 3, fun _ _ => 9⟩⟩) :=
  ⟨Or.inr (Or.inr (Or.inr (by decide))),
   ComputeDepth_rejects_bad_images (fun _ _ o => (0, o)) ⟨2, 3, fun _ _ => 0⟩
    ⟨2, 4, fun _ _ => 0⟩ ⟨⟨2, 3, fun _ _ => 7⟩, ⟨2, 3, fun _ _ => 8⟩, ⟨2, 3, fun _ _ => 9⟩⟩
    (Or.inr (Or.inr (Or.inr (by decide))))⟩

/-- The predicted trajectory after a run without `ComputeDepth` failure: the `num_frames`
elements the vector was created with, then `gt_poses[0]`, then one pose per frame
`1..num_frames-1`. -/
theorem main_pred_poses {K D : Type} [Field K] (atof : List Char → D)
    (toFloat : D → K) (num_frames : Nat) (file : Option (List Char))
    (Solve : Nat → Affine4 K) (depth_status : Nat → GlobalStatus)
    (raw_line0 sub0 : CharBuf) (tmp_pose0 : Pose34 K) (gt_init pred_init : Nat → Pose34 K)
    (cur_pose_garbage : Affine4 K) (hn : 0 < num_frames)
    (hload : (load_gt_pose atof toFloat file raw_line0 sub0 tmp_pose0
      ((List.range num_frames).map gt_init)).isReturned = true)
    (hok : ∀ j, j < num_frames → depth_status j ≠ -1) :
    ∃ s gt0, main atof toFloat num_frames file Solve depth_status raw_line0 sub0 tmp_pose0
        gt_init pred_init cur_pose_garbage = .returned s ∧
      s.gt_poses.length = num_frames ∧ s.gt_poses.head? = some gt0 ∧
      s.pred_poses = (List.range num_frames).map pred_init ++ [gt0] ++
        (List.range (num_frames - 1)).map fun m => block34 (composed Solve 1 (m + 1)) := by
  obtain ⟨gt_poses, gt0, hl, hhead, hmain⟩ := main_returned atof toFloat num_frames file Solve
    depth_status raw_line0 sub0 tmp_pose0 gt_init pred_init cur_pose_garbage hn hload
    (hok 0 hn)
  have hlen := load_gt_pose_length atof toFloat file raw_line0 sub0 tmp_pose0 _ gt_poses hl
  rw [List.length_map, List.length_range] at hlen
  obtain ⟨-, hp⟩ := main_loop_cur_pose Solve depth_status num_frames (num_frames - 1) 1
    (loop_entry num_frames pred_init cur_pose_garbage gt_poses gt0) (by omega)
    (fun j h1 h2 => hok j (by omega))
  obtain ⟨-, -, hg⟩ := main_loop_pyramids Solve depth_status num_frames (num_frames - 1) 1
    (loop_entry num_frames pred_init cur_pose_garbage gt_poses gt0)
  refine ⟨_, gt0, hmain, ?_, ?_, ?_⟩
  · show (main_loop Solve depth_status num_frames (num_frames - 1) 1
      (loop_entry num_frames pred_init cur_pose_garbage gt_poses gt0)).gt_poses.length = _
    rw [hg]
    exact hlen
  · show (main_loop Solve depth_status num_frames (num_frames - 1) 1
      (loop_entry num_frames pred_init cur_pose_garbage gt_poses gt0)).gt_poses.head? = _
    rw [hg]
    exact hhead
  · show (main_loop Solve depth_status num_frames (num_frames - 1) 1
      (loop_entry num_frames pred_init cur_pose_garbage gt_poses gt0)).pred_poses = _
    rw [hp]
    have h1 : (loop_entry num_frames pred_init cur_pose_garbage gt_poses gt0).cur_pose = 1 :=
      init_cur_pose_eq_one cur_pose_garbage
    simp only [h1, Matrix.one_mul]
    rfl

theorem sample_run_gt0 :
    (sample_run.state?.bind fun s => s.gt_poses[0]?).map (fun p => p 0 0)
      = some (atof_digits ['1']) := by
  rfl

theorem atof_digits_one : atof_digits ['1'] = 1 := by
  have h : '1'.toNat - 48 = 1 := by decide
  simp [atof_digits, h]

/-- C7 (code evaluated at the failing input): after the run over 5 frames without
`ComputeDepth` failure, `gt_poses` has 5 entries but `pred_poses` has 10: entries 0..4 are the
elements the vector was created with (entry 0 is not `gt_poses[0]`), entry 5 is `gt_poses[0]`
and entry `5 + k` is the pose predicted for frame `k`. -/
theorem pred_poses_has_ten_entries :
    ∃ s gt0, sample_run = .returned s ∧ s.gt_poses.length = 5 ∧ s.pred_poses.length = 10 ∧
      s.gt_poses[0]? = some gt0 ∧ gt0 0 0 = 1 ∧
      s.pred_poses[0]? = some 0 ∧ s.pred_poses[0]? ≠ s.gt_poses[0]? ∧
      s.pred_poses[5]? = s.gt_poses[0]? ∧
      ∀ k, 1 ≤ k → k < 5 →
        s.pred_poses[5 + k]? = some (block34 (composed (fun _ => sample_pose) 1 k)) := by
  obtain ⟨s, gt0, hs, hlen, hhead, hpred⟩ := main_pred_poses atof_digits id 5 (some sample_file)
    (fun _ => sample_pose) (fun _ => 0) (fun _ => 'x') (fun _ => 'y') 0 (fun _ => 0)
    (fun _ => 0) 0 (by decide) (by decide) (fun _ _ => by simp)
  have hs2 : sample_run = .returned s := hs
  have hg0 : s.gt_poses[0]? = some gt0 := by
    rw [← hhead]
    cases s.gt_poses <;> simp
  have hval : gt0 0 0 = 1 := by
    have h := sample_run_gt0
    rw [hs2] at h
    simp only [Outcome.state?, Option.some_bind, hg0, Option.map_some', Option.some.injEq] at h
    rw [h, atof_digits_one]
  have hp0 : s.pred_poses[0]? = some 0 := by rw [hpred]; rfl
  refine ⟨s, gt0, hs2, hlen, ?_, hg0, hval, hp0, ?_, ?_, ?_⟩
  · rw [hpred]
    rfl
  · rw [hp0, hg0]
    intro h
    have h2 : (0 : Pose34 ℚ) 0 0 = gt0 0 0 := by
      rw [Option.some.inj h]
    rw [hval] at h2
    simp at h2
  · rw [hpred, hg0]
    rfl
  · intro k hk1 hk5
    rw [hpred]
    interval_cases k <;> rfl

end Odometry
